import Mathlib

/-!
# Verification of pydantic-file-settings (`src/pydantic_file_settings/__init__.py`)

Shallow embedding of the `FileSettings` create/load/save/exists lifecycle.

Modelling decisions:

* The pydantic schema-validation engine is an external collaborator of the
  repository (its code is not in `src/`); the spec describes its consumed
  capabilities.  We model it concretely over flat schemas of string / int /
  bool fields with optional defaults, matching the spec's collaborator
  contract and the repository's test schemas.  Definitions that embed the
  engine say so in their doc comment.
* A JSON text on disk is modelled semantically: either a well-formed JSON
  object (an ordered list of key/value pairs together with the indentation
  width of its rendering) or arbitrary other text that is not a JSON object.
* The filesystem is a pair of association lists: files (path to content,
  first entry wins, writing shadows) and a set of existing directories.
* OS-level failures (permission denied, disk full, ...) are environmental:
  an `OsEnv` oracle says whether `mkdir` or `write_text` raises and with
  which message, exactly the two operations the source's `save` wraps in
  `try/except OSError`.
* Environment-variable sourcing of pydantic-settings is excluded from the
  spec's scope, so `cls()` instantiates the declared defaults.
-/

/-- A JSON value of one of the field types used by the settings schemas,
plus `null` standing for any JSON value outside those types. -/
inductive JVal where
  | s (v : String)
  | i (v : Int)
  | b (v : Bool)
  | null
  deriving DecidableEq, Repr

/-- A declared field type of a settings schema. -/
inductive FType where
  | tstr
  | tint
  | tbool
  deriving DecidableEq, Repr

/-- One declared schema field: name, type, optional default value. -/
structure FieldDecl where
  name : String
  type : FType
  dflt : Option JVal
  deriving DecidableEq, Repr

/-- A concrete settings schema: its ordered field declarations plus the
class-level filename constant `__FILENAME__` (default `"settings.json"`). -/
structure Schema where
  fields : List FieldDecl
  filename : String := "settings.json"
  deriving DecidableEq, Repr

/-- A JSON text, modelled semantically: `obj fields indent` is the rendering
of a flat JSON object with the given key/value pairs and indentation width
(`some 2` for the library's `model_dump_json(indent=2)` output, `none` for a
compact rendering such as `json.dumps`); `bad s` is any text that is not a
valid JSON object. -/
inductive JsonText where
  | obj (fields : List (String × JVal)) (indent : Option Nat)
  | bad (s : String)
  deriving DecidableEq, Repr

/-- Filesystem state: regular files (path to JSON text, first entry wins)
and the set of existing directories. -/
structure FS where
  files : List (String × JsonText)
  dirs : List String
  deriving DecidableEq, Repr

/-- `Path(p).resolve()`: purely lexical/filesystem-normalising resolution of
a path to an absolute path; total, requires nothing to exist.  Paths in the
model are already absolute, so resolution is the identity. -/
def resolvePath (p : String) : String := p

/-- `dir / name`: join a directory path and a file name. -/
def joinPath (dir name : String) : String := dir ++ "/" ++ name

/-- All ancestor directories of `d` including `d` itself, as produced by
`Path.mkdir(parents=True)`. -/
def pathPrefixes (d : String) : List String :=
  let parts := d.splitOn "/"
  (List.range parts.length).map fun n => String.intercalate "/" (parts.take (n + 1))

/-- First value bound to key `k` in a JSON object's entry list. -/
def lookupField (obj : List (String × JVal)) (k : String) : Option JVal :=
  (obj.find? fun p => p.1 == k).map Prod.snd

def FS.readFile (fs : FS) (p : String) : Option JsonText :=
  (fs.files.find? fun q => q.1 == p).map Prod.snd

def FS.fileExists (fs : FS) (p : String) : Bool :=
  (fs.readFile p).isSome

/-- `path.write_text(...)`: create or replace the file at `p`. -/
def FS.writeFile (fs : FS) (p : String) (c : JsonText) : FS :=
  { fs with files := (p, c) :: fs.files }

/-- Create one directory if missing (`exist_ok=True` for a single level). -/
def FS.mkdirOne (fs : FS) (d : String) : FS :=
  if fs.dirs.contains d then fs else { fs with dirs := d :: fs.dirs }

/-- `path.mkdir(parents=True, exist_ok=True)`: create `d` and every missing
ancestor, recursively and idempotently. -/
def FS.mkdirParents (fs : FS) (d : String) : FS :=
  (pathPrefixes d).foldl FS.mkdirOne fs

/-- The error taxonomy as raised by the source, with Python's class
hierarchy recorded by `Err.isSettingsError` below.
`settingsExists` is `SettingsExistsError`, `settingsNotFound` is
`SettingsNotFoundError` (both subclasses of `SettingsError`);
`valueError` is the plain `ValueError("Invalid settings data: ...")` raised
by `load`, `osError` the plain `OSError("Failed to save settings to ...")`
raised by `save`, and `validationError` is pydantic's `ValidationError`. -/
inductive Err where
  | settingsExists (msg : String)
  | settingsNotFound (msg : String)
  | valueError (msg : String)
  | osError (msg : String)
  | validationError (msg : String)
  deriving DecidableEq, Repr

/-- Whether the raised exception is an instance of the base class
`SettingsError`: per the source, only `SettingsExistsError` and
`SettingsNotFoundError` subclass it; `ValueError`, `OSError` and pydantic's
`ValidationError` do not. -/
def Err.isSettingsError : Err → Bool
  | .settingsExists _ => true
  | .settingsNotFound _ => true
  | .valueError _ => false
  | .osError _ => false
  | .validationError _ => false

/-- The message carried by an error. -/
def Err.msg : Err → String
  | .settingsExists m => m
  | .settingsNotFound m => m
  | .valueError m => m
  | .osError m => m
  | .validationError m => m

/-- Oracle for OS-level failures during `save`: whether
`mkdir(parents=True, exist_ok=True)` respectively `write_text` raises
`OSError`, and with which description. -/
structure OsEnv where
  mkdirError : Option String
  writeError : Option String
  deriving DecidableEq, Repr

/-- The environment in which no filesystem operation fails. -/
def envOk : OsEnv := ⟨none, none⟩

/-- A bound settings instance: the validated field values (in schema
declaration order) and the private `_settings_dir` attribute. -/
structure Instance where
  vals : List (String × JVal)
  settingsDir : String
  deriving DecidableEq, Repr

/-- Modelled from the spec: the engine's per-value type check (capability
"validate a mapping of field values against a declared schema"). -/
def checkType : FType → JVal → Bool
  | .tstr, .s _ => true
  | .tint, .i _ => true
  | .tbool, .b _ => true
  | _, _ => false

/-- Modelled from the spec: engine instantiation with declared defaults,
`cls()` (environment sourcing excluded per the spec); a field without a
default is required, so instantiation fails with a validation error. -/
def Schema.instantiateDefaults : List FieldDecl → Except String (List (String × JVal))
  | [] => .ok []
  | f :: fs =>
    match f.dflt with
    | none => .error ("Field required: " ++ f.name)
    | some d =>
      match Schema.instantiateDefaults fs with
      | .error e => .error e
      | .ok vs => .ok ((f.name, d) :: vs)

/-- Modelled from the spec: validate the fields of a parsed JSON object
against the declared fields, in declaration order; a present value of the
wrong type fails, an absent field falls back to its default if it has one
and fails as required otherwise. -/
def validateFieldsAux : List FieldDecl → List (String × JVal) → Except String (List (String × JVal))
  | [], _ => .ok []
  | f :: fs, obj =>
    match lookupField obj f.name with
    | some v =>
      if checkType f.type v then
        match validateFieldsAux fs obj with
        | .error e => .error e
        | .ok vs => .ok ((f.name, v) :: vs)
      else .error ("Input should be a valid value for " ++ f.name)
    | none =>
      match f.dflt with
      | none => .error ("Field required: " ++ f.name)
      | some d =>
        match validateFieldsAux fs obj with
        | .error e => .error e
        | .ok vs => .ok ((f.name, d) :: vs)

/-- Whether key `k` is declared in the schema. -/
def Schema.declares (S : Schema) (k : String) : Bool :=
  S.fields.any fun f => f.name == k

/-- Modelled from the spec: validate a parsed JSON object against the
schema.  The engine is strict about extras (`extra="forbid"`, as the
repository's tests require): an undeclared key is rejected. -/
def validateObj (S : Schema) (obj : List (String × JVal)) :
    Except String (List (String × JVal)) :=
  match obj.find? fun p => !S.declares p.1 with
  | some p => .error ("Extra inputs are not permitted: " ++ p.1)
  | none => validateFieldsAux S.fields obj

/-- Modelled from the spec: `cls.model_validate_json`: parse the file text
as JSON (failing on malformed text) and validate it against the schema,
producing either the validated field values or a diagnostic. -/
def modelValidateJson (S : Schema) (c : JsonText) :
    Except String (List (String × JVal)) :=
  match c with
  | .bad s => .error ("Invalid JSON: " ++ s)
  | .obj obj _ => validateObj S obj

/-- Modelled from the spec: `self.model_dump_json(indent=2)`: serialise the
current field values to a 2-space-indented JSON text containing exactly
those fields. -/
def modelDumpJson (inst : Instance) : JsonText :=
  .obj inst.vals (some 2)

/-- Modelled from the spec: assignment-time validation
(`validate_assignment=True` in `BaseSettings.model_config`).  Assigning
value `v` to field `name` validates `v` against the declared type: a valid
assignment updates the field in place, an invalid one (wrong type, or no
such declared field) raises a `ValidationError` and leaves the instance
unchanged. -/
def setField (S : Schema) (inst : Instance) (name : String) (v : JVal) :
    Instance × Option Err :=
  match S.fields.find? fun f => f.name == name with
  | none => (inst, some (.validationError ("Object has no attribute " ++ name)))
  | some f =>
    if checkType f.type v then
      ({ inst with vals := inst.vals.map fun p => if p.1 == name then (name, v) else p },
       none)
    else (inst, some (.validationError ("Input should be a valid value for " ++ name)))

/-- A sequence of field assignments applied one after the other; an
assignment that raises leaves the instance as it was (the caller handles
the exception), exactly as in Python. -/
def applyAssignments (S : Schema) (inst : Instance)
    (us : List (String × JVal)) : Instance :=
  us.foldl (fun i u => (setField S i u.1 u.2).1) inst

namespace FileSettings

/-- `FileSettings.exists(settings_dir)`: resolve the directory and test
whether `<dir>/<filename>` exists.  A pure read: the filesystem state is
returned unchanged, and the check is total (never raises). -/
def exists_ (S : Schema) (fs : FS) (settings_dir : String) : FS × Bool :=
  (fs, fs.fileExists (joinPath (resolvePath settings_dir) S.filename))

/-- `self.save()`: compute `<_settings_dir>/<filename>`, create missing
parent directories recursively, and write the 2-space-indented JSON dump of
the current field values, replacing any prior content.  Any `OSError` from
`mkdir` or `write_text` is re-raised as an `OSError` whose message embeds
the target path and the underlying description.  Returns the (unmodified)
instance, the resulting filesystem and the raised error, if any. -/
def save (S : Schema) (env : OsEnv) (inst : Instance) (fs : FS) :
    Instance × FS × Option Err :=
  let file_path := joinPath inst.settingsDir S.filename
  match env.mkdirError with
  | some m =>
    (inst, fs, some (.osError ("Failed to save settings to " ++ file_path ++ ": " ++ m)))
  | none =>
    let fs₁ := fs.mkdirParents inst.settingsDir
    match env.writeError with
    | some m =>
      (inst, fs₁, some (.osError ("Failed to save settings to " ++ file_path ++ ": " ++ m)))
    | none => (inst, fs₁.writeFile file_path (modelDumpJson inst), none)

/-- `FileSettings.create(settings_dir, exists_ok=False)`: resolve the
directory; if `exists_ok` is false and the settings file exists, raise
`SettingsExistsError`; otherwise instantiate the defaults (`cls()`), bind
`_settings_dir`, persist via `save`, and return the instance. -/
def create (S : Schema) (env : OsEnv) (fs : FS) (settings_dir : String)
    (exists_ok : Bool) : FS × Except Err Instance :=
  let d := resolvePath settings_dir
  if !exists_ok && (exists_ S fs d).2 then
    (fs, .error (.settingsExists
      ("`" ++ S.filename ++ "` already exists in `" ++ d ++ "`")))
  else
    match Schema.instantiateDefaults S.fields with
    | .error m => (fs, .error (.validationError m))
    | .ok vals =>
      let settings : Instance := ⟨vals, d⟩
      match save S env settings fs with
      | (_, fs₁, some e) => (fs₁, .error e)
      | (inst, fs₁, none) => (fs₁, .ok inst)

/-- `FileSettings.load(settings_dir, create_if_missing=False)`: resolve the
directory; if the settings file is missing, delegate to `create` when
`create_if_missing` else raise `SettingsNotFoundError`; otherwise read the
file text and `model_validate_json` it, re-raising a `ValidationError` as
`ValueError("Invalid settings data: ...")`, then bind `_settings_dir`. -/
def load (S : Schema) (env : OsEnv) (fs : FS) (settings_dir : String)
    (create_if_missing : Bool) : FS × Except Err Instance :=
  let d := resolvePath settings_dir
  match fs.readFile (joinPath d S.filename) with
  | none =>
    if create_if_missing then create S env fs d false
    else (fs, .error (.settingsNotFound
      ("`" ++ S.filename ++ "` not found in `" ++ d ++ "`")))
  | some json_data =>
    match modelValidateJson S json_data with
    | .error e => (fs, .error (.valueError ("Invalid settings data: " ++ e)))
    | .ok vals => (fs, .ok ⟨vals, d⟩)

end FileSettings

/-- FieldDecl values conform to the schema: one entry per declared field, in
declaration order, each of the declared type. -/
def ValsMatch : List FieldDecl → List (String × JVal) → Bool
  | [], [] => true
  | f :: fs, (k, v) :: vs => k == f.name && checkType f.type v && ValsMatch fs vs
  | _, _ => false

/-- An instance's field values satisfy the schema's validation rules. -/
def Schema.Valid (S : Schema) (vals : List (String × JVal)) : Prop :=
  ValsMatch S.fields vals = true

instance (S : Schema) (vals : List (String × JVal)) : Decidable (S.Valid vals) :=
  inferInstanceAs (Decidable (ValsMatch S.fields vals = true))

/-- Well-formed schema: distinct field names, and every declared default
satisfies its own field's type. -/
def Schema.WF (S : Schema) : Prop :=
  (S.fields.map FieldDecl.name).Nodup ∧
    ∀ f ∈ S.fields, ∀ d, f.dflt = some d → checkType f.type d = true

/-- The `SimpleSettings` schema of the repository's tests:
`name: str = "default"`, `count: int = 0`, `enabled: bool = True`. -/
def SimpleSettings : Schema :=
  { fields :=
      [⟨"name", .tstr, some (.s "default")⟩,
       ⟨"count", .tint, some (.i 0)⟩,
       ⟨"enabled", .tbool, some (.b true)⟩] }

/-- The empty filesystem. -/
def FS.empty : FS := ⟨[], []⟩

/-- The default field values of `SimpleSettings`. -/
def simpleDefaults : List (String × JVal) :=
  [("name", .s "default"), ("count", .i 0), ("enabled", .b true)]

/-- A complete valid field-value mapping for `SimpleSettings`, as in the
repository's save/load round-trip test. -/
def simpleM : List (String × JVal) :=
  [("name", .s "updated"), ("count", .i 42), ("enabled", .b false)]

/-- A filesystem whose settings file holds text that is not valid JSON,
as in the repository's invalid-JSON test. -/
def fsBad : FS := FS.empty.writeFile "/app/settings.json" (.bad "invalid json")

/-- A filesystem whose settings file holds a JSON object with an
undeclared extra key, as in the repository's extra-fields test. -/
def fsExtra : FS :=
  FS.empty.writeFile "/app/settings.json"
    (.obj [("name", .s "t"), ("unknown_field", .s "x")] none)

/-- A filesystem obtained by creating `SimpleSettings` in `/app`. -/
def fsSimple : FS :=
  (FileSettings.create SimpleSettings envOk FS.empty "/app" false).1

/-- An environment in which `mkdir` fails with a permission error. -/
def envFail : OsEnv := ⟨some "Permission denied", none⟩

/-- A filesystem whose settings file holds a string where the declared
numeric field `count` expects a number, as in the repository's
invalid-data-types test. -/
def fsWrongType : FS :=
  FS.empty.writeFile "/app/settings.json"
    (.obj [("name", .s "test"), ("count", .s "not a number"), ("enabled", .b true)]
      none)

/-! ## Basic lemmas about the association-list operations -/

theorem lookupField_cons (k' : String) (v : JVal) (xs : List (String × JVal))
    (k : String) :
    lookupField ((k', v) :: xs) k = if k' == k then some v else lookupField xs k := by
  simp only [lookupField, List.find?]
  by_cases h : k' == k
  · simp [h]
  · simp [h]

theorem lookupField_append_left_none (xs ys : List (String × JVal)) (k : String)
    (h : lookupField xs k = none) :
    lookupField (xs ++ ys) k = lookupField ys k := by
  induction xs with
  | nil => simp
  | cons x xs ih =>
    obtain ⟨k', v⟩ := x
    rw [List.cons_append, lookupField_cons]
    rw [lookupField_cons] at h
    by_cases hk : k' == k
    · simp [hk] at h
    · simp only [hk, if_neg, Bool.false_eq_true, not_false_iff, if_false] at h ⊢
      exact ih h

theorem lookupField_self (k : String) (v : JVal) (xs : List (String × JVal)) :
    lookupField ((k, v) :: xs) k = some v := by
  rw [lookupField_cons]
  simp

theorem FS.readFile_writeFile_self (fs : FS) (p : String) (c : JsonText) :
    (fs.writeFile p c).readFile p = some c := by
  simp [FS.readFile, FS.writeFile, List.find?]

theorem FS.fileExists_writeFile_self (fs : FS) (p : String) (c : JsonText) :
    (fs.writeFile p c).fileExists p = true := by
  simp [FS.fileExists, FS.readFile_writeFile_self]

theorem FS.mkdirOne_files (fs : FS) (d : String) :
    (fs.mkdirOne d).files = fs.files := by
  by_cases h : d ∈ fs.dirs <;> simp [FS.mkdirOne, h]

theorem foldl_mkdirOne_files (ds : List String) (fs : FS) :
    (ds.foldl FS.mkdirOne fs).files = fs.files := by
  induction ds generalizing fs with
  | nil => rfl
  | cons d ds ih => rw [List.foldl_cons, ih, FS.mkdirOne_files]

theorem FS.mkdirParents_files (fs : FS) (d : String) :
    (fs.mkdirParents d).files = fs.files :=
  foldl_mkdirOne_files _ fs

theorem FS.readFile_mkdirParents (fs : FS) (d p : String) :
    (fs.mkdirParents d).readFile p = fs.readFile p := by
  simp [FS.readFile, FS.mkdirParents_files]

theorem FS.mkdirOne_mem_self (fs : FS) (d : String) :
    d ∈ (fs.mkdirOne d).dirs := by
  by_cases h : d ∈ fs.dirs <;> simp [FS.mkdirOne, h]

theorem FS.mkdirOne_mem_mono (fs : FS) (d x : String) (h : x ∈ fs.dirs) :
    x ∈ (fs.mkdirOne d).dirs := by
  by_cases hc : d ∈ fs.dirs <;> simp [FS.mkdirOne, hc, h]

theorem foldl_mkdirOne_mem_mono (ds : List String) (fs : FS) (x : String)
    (h : x ∈ fs.dirs) : x ∈ (ds.foldl FS.mkdirOne fs).dirs := by
  induction ds generalizing fs with
  | nil => exact h
  | cons d ds ih => exact ih _ (FS.mkdirOne_mem_mono fs d x h)

theorem foldl_mkdirOne_mem (ds : List String) (fs : FS) (x : String)
    (h : x ∈ ds) : x ∈ (ds.foldl FS.mkdirOne fs).dirs := by
  induction ds generalizing fs with
  | nil => cases h
  | cons d ds ih =>
    rcases List.mem_cons.mp h with rfl | h
    · exact foldl_mkdirOne_mem_mono ds _ x (FS.mkdirOne_mem_self fs x)
    · exact ih _ h

theorem FS.mkdirOne_of_mem (fs : FS) (d : String) (h : d ∈ fs.dirs) :
    fs.mkdirOne d = fs := by
  simp [FS.mkdirOne, h]

theorem foldl_mkdirOne_of_mem (ds : List String) (fs : FS)
    (h : ∀ d ∈ ds, d ∈ fs.dirs) : ds.foldl FS.mkdirOne fs = fs := by
  induction ds with
  | nil => rfl
  | cons d ds ih =>
    rw [List.foldl_cons, FS.mkdirOne_of_mem fs d (h d (by simp))]
    exact ih fun x hx => h x (by simp [hx])

/-- `mkdir(parents=True, exist_ok=True)` is idempotent. -/
theorem FS.mkdirParents_idem (fs : FS) (d : String) :
    (fs.mkdirParents d).mkdirParents d = fs.mkdirParents d := by
  unfold FS.mkdirParents
  exact foldl_mkdirOne_of_mem _ _ fun x hx => foldl_mkdirOne_mem _ fs x hx

/-- After `mkdirParents d`, the directory `d` and each of its ancestors
exist. -/
theorem FS.mkdirParents_mem (fs : FS) (d x : String) (h : x ∈ pathPrefixes d) :
    x ∈ (fs.mkdirParents d).dirs :=
  foldl_mkdirOne_mem _ fs x h

/-! ## Lemmas about validation -/

theorem ValsMatch_nil_iff (vs : List (String × JVal)) :
    ValsMatch [] vs = true ↔ vs = [] := by
  cases vs <;> simp [ValsMatch]

theorem ValsMatch_cons_iff (f : FieldDecl) (fields : List FieldDecl)
    (vs : List (String × JVal)) :
    ValsMatch (f :: fields) vs = true ↔
      ∃ v vs', vs = (f.name, v) :: vs' ∧ checkType f.type v = true ∧
        ValsMatch fields vs' = true := by
  cases vs with
  | nil => simp [ValsMatch]
  | cons p vs' =>
    obtain ⟨k, v⟩ := p
    simp only [ValsMatch, Bool.and_eq_true, beq_iff_eq]
    constructor
    · rintro ⟨⟨rfl, hv⟩, hm⟩
      exact ⟨v, vs', rfl, hv, hm⟩
    · rintro ⟨w, ws, heq, hv, hm⟩
      injection heq with h1 h2
      injection h1 with hk hw
      subst hk hw h2
      exact ⟨⟨rfl, hv⟩, hm⟩

theorem ValsMatch_keys (fields : List FieldDecl) (vs : List (String × JVal))
    (h : ValsMatch fields vs = true) :
    vs.map Prod.fst = fields.map FieldDecl.name := by
  induction fields generalizing vs with
  | nil => rw [(ValsMatch_nil_iff vs).mp h]; rfl
  | cons f fs ih =>
    obtain ⟨v, vs', rfl, _, hm⟩ := (ValsMatch_cons_iff f fs vs).mp h
    simp [ih vs' hm]

theorem validateFieldsAux_of_match (fields : List FieldDecl)
    (vs pre : List (String × JVal))
    (hm : ValsMatch fields vs = true)
    (hnd : (fields.map FieldDecl.name).Nodup)
    (hpre : ∀ f ∈ fields, lookupField pre f.name = none) :
    validateFieldsAux fields (pre ++ vs) = .ok vs := by
  induction fields generalizing vs pre with
  | nil =>
    rw [(ValsMatch_nil_iff vs).mp hm]
    rfl
  | cons f fs ih =>
    obtain ⟨v, vs', rfl, hv, hm'⟩ := (ValsMatch_cons_iff f fs vs).mp hm
    have hlook : lookupField (pre ++ (f.name, v) :: vs') f.name = some v := by
      rw [lookupField_append_left_none _ _ _ (hpre f (by simp))]
      exact lookupField_self _ _ _
    have hnd' : (fs.map FieldDecl.name).Nodup := (List.nodup_cons.mp hnd).2
    have hfn : f.name ∉ fs.map FieldDecl.name := (List.nodup_cons.mp hnd).1
    have hpre' : ∀ g ∈ fs, lookupField (pre ++ [(f.name, v)]) g.name = none := by
      intro g hg
      rw [lookupField_append_left_none _ _ _ (hpre g (by simp [hg]))]
      rw [lookupField_cons]
      have hne : f.name ≠ g.name := by
        intro hEq
        exact hfn (hEq ▸ List.mem_map_of_mem FieldDecl.name hg)
      simp [hne, lookupField]
    have hrec : validateFieldsAux fs ((pre ++ [(f.name, v)]) ++ vs') = .ok vs' :=
      ih vs' (pre ++ [(f.name, v)]) hm' hnd' hpre'
    rw [List.append_assoc, List.singleton_append] at hrec
    simp only [validateFieldsAux, hlook, hv, if_true, hrec]

theorem validateObj_of_valid (S : Schema) (vs : List (String × JVal))
    (hwf : S.WF) (hv : S.Valid vs) :
    validateObj S vs = .ok vs := by
  have hkeys := ValsMatch_keys S.fields vs hv
  have hdecl : ∀ p ∈ vs, S.declares p.1 = true := by
    intro p hp
    have : p.1 ∈ S.fields.map FieldDecl.name := by
      rw [← hkeys]
      exact List.mem_map_of_mem Prod.fst hp
    obtain ⟨f, hf, hfe⟩ := List.mem_map.mp this
    exact List.any_eq_true.mpr ⟨f, hf, by simp [hfe]⟩
  have hfind : (vs.find? fun p => !S.declares p.1) = none := by
    rw [List.find?_eq_none]
    intro p hp
    simp [hdecl p hp]
  unfold validateObj
  rw [hfind]
  have := validateFieldsAux_of_match S.fields vs [] hv hwf.1
    (fun f _ => rfl)
  simpa using this

theorem instantiateDefaults_match (fields : List FieldDecl)
    (vs : List (String × JVal))
    (hty : ∀ f ∈ fields, ∀ d, f.dflt = some d → checkType f.type d = true)
    (h : Schema.instantiateDefaults fields = .ok vs) :
    ValsMatch fields vs = true := by
  induction fields generalizing vs with
  | nil =>
    simp only [Schema.instantiateDefaults] at h
    cases h
    rfl
  | cons f fs ih =>
    simp only [Schema.instantiateDefaults] at h
    cases hd : f.dflt with
    | none => rw [hd] at h; cases h
    | some d =>
      rw [hd] at h
      cases hrec : Schema.instantiateDefaults fs with
      | error e => rw [hrec] at h; cases h
      | ok ws =>
        rw [hrec] at h
        cases h
        rw [ValsMatch_cons_iff]
        exact ⟨d, ws, rfl, hty f (by simp) d hd,
          ih ws (fun g hg => hty g (by simp [hg])) hrec⟩

/-! ## Lemmas about field assignment -/

theorem map_updateKey_id (name : String) (v : JVal) (vs : List (String × JVal))
    (h : name ∉ vs.map Prod.fst) :
    (vs.map fun p => if p.1 == name then (name, v) else p) = vs := by
  induction vs with
  | nil => rfl
  | cons p ps ih =>
    simp only [List.map_cons, List.mem_cons, not_or] at h ⊢
    have hne : ¬(p.1 == name) = true := by
      simp only [beq_iff_eq]
      exact fun he => h.1 he.symm
    rw [if_neg hne, ih h.2]

theorem valsMatch_update (name : String) (v : JVal) (f : FieldDecl) :
    ∀ (fields : List FieldDecl) (vs : List (String × JVal)),
    ValsMatch fields vs = true →
    (fields.map FieldDecl.name).Nodup →
    fields.find? (fun g => g.name == name) = some f →
    checkType f.type v = true →
    ValsMatch fields (vs.map fun p => if p.1 == name then (name, v) else p) = true := by
  intro fields
  induction fields with
  | nil => intro vs _ _ hfind; cases hfind
  | cons g gs ih =>
    intro vs hm hnd hfind hty
    obtain ⟨w, vs', rfl, hw, hm'⟩ := (ValsMatch_cons_iff g gs vs).mp hm
    by_cases hgn : (g.name == name) = true
    · have hf : f = g := by
        rw [@List.find?_cons_of_pos _ (fun g => g.name == name) g gs hgn] at hfind
        exact (Option.some.inj hfind).symm
      have hname : g.name = name := beq_iff_eq.mp hgn
      have hkeys : vs'.map Prod.fst = gs.map FieldDecl.name := ValsMatch_keys gs vs' hm'
      have hnot : name ∉ vs'.map Prod.fst := by
        rw [hkeys, ← hname]
        exact (List.nodup_cons.mp hnd).1
      simp only [List.map_cons, if_pos hgn, map_updateKey_id name v vs' hnot]
      rw [ValsMatch_cons_iff]
      exact ⟨v, vs', by rw [hname], hf ▸ hty, hm'⟩
    · have hfind' : gs.find? (fun g => g.name == name) = some f := by
        rwa [@List.find?_cons_of_neg _ (fun g => g.name == name) g gs hgn] at hfind
      have hnd' : (gs.map FieldDecl.name).Nodup := (List.nodup_cons.mp hnd).2
      simp only [List.map_cons, if_neg hgn]
      rw [ValsMatch_cons_iff]
      exact ⟨w, _, rfl, hw, ih vs' hm' hnd' hfind' hty⟩

theorem setField_settingsDir (S : Schema) (inst : Instance) (name : String)
    (v : JVal) : ((setField S inst name v).1).settingsDir = inst.settingsDir := by
  unfold setField
  cases S.fields.find? fun f => f.name == name with
  | none => rfl
  | some f =>
    by_cases h : checkType f.type v = true <;> simp [h]

theorem setField_error_unchanged (S : Schema) (inst : Instance) (name : String)
    (v : JVal) (e : Err) (h : (setField S inst name v).2 = some e) :
    (setField S inst name v).1 = inst := by
  cases hfind : S.fields.find? fun f => f.name == name with
  | none => simp only [setField, hfind]
  | some f =>
    by_cases hty : checkType f.type v = true
    · exfalso
      simp only [setField, hfind, hty, if_true] at h
      simp at h
    · simp only [setField, hfind]
      rw [if_neg hty]

theorem setField_preserves_valid (S : Schema) (hwf : S.WF) (inst : Instance)
    (name : String) (v : JVal) (hv : S.Valid inst.vals) :
    S.Valid ((setField S inst name v).1).vals := by
  unfold setField
  cases hfind : S.fields.find? fun f => f.name == name with
  | none => exact hv
  | some f =>
    by_cases hty : checkType f.type v = true
    · simp only [hty, if_true]
      exact valsMatch_update name v f S.fields inst.vals hv hwf.1 hfind hty
    · simp only [hty, if_false, Bool.false_eq_true]
      exact hv

theorem applyAssignments_settingsDir (S : Schema) (inst : Instance)
    (us : List (String × JVal)) :
    (applyAssignments S inst us).settingsDir = inst.settingsDir := by
  induction us generalizing inst with
  | nil => rfl
  | cons u us ih =>
    unfold applyAssignments at ih ⊢
    rw [List.foldl_cons, ih]
    exact setField_settingsDir S inst u.1 u.2

theorem applyAssignments_preserves_valid (S : Schema) (hwf : S.WF)
    (inst : Instance) (us : List (String × JVal)) (hv : S.Valid inst.vals) :
    S.Valid (applyAssignments S inst us).vals := by
  induction us generalizing inst with
  | nil => exact hv
  | cons u us ih =>
    unfold applyAssignments at ih ⊢
    rw [List.foldl_cons]
    exact ih _ (setField_preserves_valid S hwf inst u.1 u.2 hv)

theorem ValsMatch_append (as cs : List FieldDecl) (bs ds : List (String × JVal))
    (h₁ : ValsMatch as bs = true) (h₂ : ValsMatch cs ds = true) :
    ValsMatch (as ++ cs) (bs ++ ds) = true := by
  induction as generalizing bs with
  | nil => rw [(ValsMatch_nil_iff bs).mp h₁]; simpa using h₂
  | cons f fs ih =>
    obtain ⟨v, vs', rfl, hv, hm⟩ := (ValsMatch_cons_iff f fs bs).mp h₁
    simp only [List.cons_append]
    rw [ValsMatch_cons_iff]
    exact ⟨v, vs' ++ ds, rfl, hv, ih vs' hm⟩

theorem validateFieldsAux_valid :
    ∀ (fields : List FieldDecl) (obj vs : List (String × JVal)),
    (∀ f ∈ fields, ∀ dd, f.dflt = some dd → checkType f.type dd = true) →
    validateFieldsAux fields obj = .ok vs →
    ValsMatch fields vs = true := by
  intro fields
  induction fields with
  | nil =>
    intro obj vs _ h
    simp only [validateFieldsAux] at h
    cases h
    rfl
  | cons f fs ih =>
    intro obj vs hty h
    simp only [validateFieldsAux] at h
    split at h
    · rename_i v hl
      split at h
      · rename_i hc
        split at h
        · cases h
        · rename_i ws hrec
          cases h
          rw [ValsMatch_cons_iff]
          exact ⟨v, ws, rfl, hc, ih obj ws (fun g hg => hty g (by simp [hg])) hrec⟩
      · cases h
    · rename_i hl
      split at h
      · cases h
      · rename_i dd hd
        split at h
        · cases h
        · rename_i ws hrec
          cases h
          rw [ValsMatch_cons_iff]
          exact ⟨dd, ws, rfl, hty f (by simp) dd hd,
            ih obj ws (fun g hg => hty g (by simp [hg])) hrec⟩

theorem modelValidateJson_valid (S : Schema)
    (hty : ∀ f ∈ S.fields, ∀ dd, f.dflt = some dd → checkType f.type dd = true)
    (c : JsonText) (vs : List (String × JVal))
    (h : modelValidateJson S c = .ok vs) : S.Valid vs := by
  cases c with
  | bad s => cases h
  | obj obj ind =>
    simp only [modelValidateJson, validateObj] at h
    cases hfind : obj.find? fun p => !S.declares p.1 with
    | some p => rw [hfind] at h; cases h
    | none =>
      rw [hfind] at h
      exact validateFieldsAux_valid S.fields obj vs hty h

theorem applyAssignments_aligned (S : Schema) :
    ∀ (frest fdone : List FieldDecl)
      (mdone mrest dvrest : List (String × JVal)) (d : String),
    S.fields = fdone ++ frest →
    (S.fields.map FieldDecl.name).Nodup →
    ValsMatch fdone mdone = true →
    ValsMatch frest mrest = true →
    ValsMatch frest dvrest = true →
    applyAssignments S ⟨mdone ++ dvrest, d⟩ mrest = ⟨mdone ++ mrest, d⟩ := by
  intro frest
  induction frest with
  | nil =>
    intro fdone mdone mrest dvrest d _ _ _ hm hdv
    rw [(ValsMatch_nil_iff mrest).mp hm, (ValsMatch_nil_iff dvrest).mp hdv]
    rfl
  | cons f fs ih =>
    intro fdone mdone mrest dvrest d hsplit hnd hdone hm hdv
    obtain ⟨mv, mrest', rfl, hmv, hm'⟩ := (ValsMatch_cons_iff f fs mrest).mp hm
    obtain ⟨dvv, dvrest', rfl, hdvv, hdv'⟩ := (ValsMatch_cons_iff f fs dvrest).mp hdv
    have hnames : (fdone.map FieldDecl.name ++
        f.name :: fs.map FieldDecl.name).Nodup := by
      have := hnd
      rw [hsplit] at this
      simpa [List.map_append] using this
    have hdisj := (List.nodup_append.mp hnames).2.2
    have hnodup_right := (List.nodup_append.mp hnames).2.1
    have hfd_ne : ∀ a ∈ fdone.map FieldDecl.name, a ≠ f.name := by
      intro a ha
      intro hEq
      exact hdisj ha (by simp [hEq])
    have hfs_nf : f.name ∉ fs.map FieldDecl.name := (List.nodup_cons.mp hnodup_right).1
    have hfind : S.fields.find? (fun g => g.name == f.name) = some f := by
      rw [hsplit, List.find?_append]
      have h1 : fdone.find? (fun g => g.name == f.name) = none := by
        rw [List.find?_eq_none]
        intro g hg
        simp only [beq_iff_eq]
        exact hfd_ne g.name (List.mem_map_of_mem FieldDecl.name hg)
      rw [h1, Option.none_or]
      exact @List.find?_cons_of_pos _ (fun g => g.name == f.name) f fs (by simp)
    have hmdone_id :
        (mdone.map fun p => if p.1 == f.name then (f.name, mv) else p) = mdone := by
      apply map_updateKey_id
      rw [ValsMatch_keys fdone mdone hdone]
      intro hmem
      exact hfd_ne f.name hmem rfl
    have hdvrest_id :
        (dvrest'.map fun p => if p.1 == f.name then (f.name, mv) else p) = dvrest' := by
      apply map_updateKey_id
      rw [ValsMatch_keys fs dvrest' hdv']
      exact hfs_nf
    have hstep : (setField S ⟨mdone ++ (f.name, dvv) :: dvrest', d⟩ f.name mv).1
        = ⟨(mdone ++ [(f.name, mv)]) ++ dvrest', d⟩ := by
      simp only [setField, hfind, hmv, if_true]
      simp only [List.map_append, List.map_cons]
      rw [hmdone_id, hdvrest_id]
      simp
    have happ : applyAssignments S ⟨mdone ++ (f.name, dvv) :: dvrest', d⟩
        ((f.name, mv) :: mrest')
        = applyAssignments S
            (setField S ⟨mdone ++ (f.name, dvv) :: dvrest', d⟩ f.name mv).1 mrest' := rfl
    rw [happ, hstep]
    have hsingle : ValsMatch [f] [(f.name, mv)] = true := by
      simp [ValsMatch, hmv]
    have := ih (fdone ++ [f]) (mdone ++ [(f.name, mv)]) mrest' dvrest' d
      (by rw [hsplit, List.append_assoc, List.singleton_append])
      hnd (ValsMatch_append fdone [f] mdone [(f.name, mv)] hdone hsingle) hm' hdv'
    rw [this]
    simp

/-- Mutating a freshly created instance field by field to a complete valid
mapping `m` leaves the instance holding exactly `m`, still bound to `d`. -/
theorem applyAssignments_sets (S : Schema) (hwf : S.WF)
    (dv m : List (String × JVal)) (d : String)
    (hdv : S.Valid dv) (hm : S.Valid m) :
    applyAssignments S ⟨dv, d⟩ m = ⟨m, d⟩ := by
  have := applyAssignments_aligned S S.fields [] [] m dv d rfl hwf.1 rfl hm hdv
  simpa using this

/-! ## Behavior of the lifecycle operations -/

theorem save_envOk (S : Schema) (inst : Instance) (fs : FS) :
    FileSettings.save S envOk inst fs =
      (inst, (fs.mkdirParents inst.settingsDir).writeFile
        (joinPath inst.settingsDir S.filename) (modelDumpJson inst), none) := rfl

theorem create_envOk (S : Schema) (fs : FS) (d : String)
    (dv : List (String × JVal)) (eo : Bool)
    (hdv : Schema.instantiateDefaults S.fields = .ok dv)
    (hfree : (!eo && (FileSettings.exists_ S fs (resolvePath d)).2) = false) :
    FileSettings.create S envOk fs d eo =
      ((fs.mkdirParents d).writeFile (joinPath d S.filename) (.obj dv (some 2)),
        .ok ⟨dv, d⟩) := by
  simp only [FileSettings.create]
  rw [hfree, if_neg (by simp)]
  simp only [hdv]
  rfl

theorem load_read_ok (S : Schema) (env : OsEnv) (fs : FS) (d : String)
    (cim : Bool) (vals : List (String × JVal)) (c : JsonText)
    (hread : fs.readFile (joinPath d S.filename) = some c)
    (hok : modelValidateJson S c = .ok vals) :
    FileSettings.load S env fs d cim = (fs, .ok ⟨vals, d⟩) := by
  simp only [FileSettings.load]
  rw [show resolvePath d = d from rfl]
  simp only [hread, hok]

theorem load_read_error (S : Schema) (env : OsEnv) (fs : FS) (d : String)
    (cim : Bool) (c : JsonText) (diag : String)
    (hread : fs.readFile (joinPath d S.filename) = some c)
    (hbad : modelValidateJson S c = .error diag) :
    FileSettings.load S env fs d cim =
      (fs, .error (.valueError ("Invalid settings data: " ++ diag))) := by
  simp only [FileSettings.load]
  rw [show resolvePath d = d from rfl]
  simp only [hread, hbad]

theorem load_missing_create (S : Schema) (env : OsEnv) (fs : FS) (d : String)
    (hmiss : fs.readFile (joinPath d S.filename) = none) :
    FileSettings.load S env fs d true = FileSettings.create S env fs d false := by
  simp only [FileSettings.load]
  rw [show resolvePath d = d from rfl]
  simp only [hmiss, if_true]

theorem load_missing_error (S : Schema) (env : OsEnv) (fs : FS) (d : String)
    (hmiss : fs.readFile (joinPath d S.filename) = none) :
    FileSettings.load S env fs d false =
      (fs, .error (.settingsNotFound
        ("`" ++ S.filename ++ "` not found in `" ++ d ++ "`"))) := by
  simp only [FileSettings.load]
  rw [show resolvePath d = d from rfl]
  simp only [hmiss, Bool.false_eq_true, if_false]

theorem exists_false_readFile (S : Schema) (fs : FS) (d : String)
    (h : (FileSettings.exists_ S fs d).2 = false) :
    fs.readFile (joinPath d S.filename) = none := by
  cases ho : fs.readFile (joinPath d S.filename) with
  | none => rfl
  | some c =>
    exfalso
    simp only [FileSettings.exists_, FS.fileExists] at h
    rw [show joinPath (resolvePath d) S.filename = joinPath d S.filename from rfl,
      ho] at h
    cases h

theorem valid_defaults (S : Schema) (hwf : S.WF)
    (dv : List (String × JVal))
    (hdv : Schema.instantiateDefaults S.fields = .ok dv) : S.Valid dv :=
  instantiateDefaults_match S.fields dv hwf.2 hdv

/-! ## The claims -/

/-- C9: for every directory path `D` (existing on disk or not), `exists(D)`
never mutates filesystem state, never fails (it is total, returning a
boolean for every input), and returns the same boolean on repeated calls
absent external filesystem changes. -/
theorem exists_no_side_effects (S : Schema) (fs : FS) (d : String) :
    (FileSettings.exists_ S fs d).1 = fs ∧
    (FileSettings.exists_ S (FileSettings.exists_ S fs d).1 d).2
      = (FileSettings.exists_ S fs d).2 :=
  ⟨rfl, rfl⟩

/-- C10: for every bound instance, `save()` leaves the instance's in-memory
field values and its bound settings directory unchanged, both when it
succeeds and when it fails with a persistence error: `save` only writes the
filesystem, never the instance. -/
theorem save_preserves_instance (S : Schema) (env : OsEnv) (inst : Instance)
    (fs : FS) :
    (FileSettings.save S env inst fs).1 = inst ∧
    ((FileSettings.save S env inst fs).1).vals = inst.vals ∧
    ((FileSettings.save S env inst fs).1).settingsDir = inst.settingsDir := by
  have h : (FileSettings.save S env inst fs).1 = inst := by
    cases hm : env.mkdirError with
    | some m => simp only [FileSettings.save, hm]
    | none =>
      cases hw : env.writeError with
      | some m => simp only [FileSettings.save, hm, hw]
      | none => simp only [FileSettings.save, hm, hw]
  exact ⟨h, by rw [h], by rw [h]⟩

/-- C5: for every directory `D` whose settings file already exists,
`create(D)` with `exists_ok=false` always fails with `SettingsExists`,
whose message names the file and the directory, and never modifies the
existing file or any other filesystem state (the returned filesystem is the
input one, untouched). -/
theorem create_exists_fails (S : Schema) (env : OsEnv) (fs : FS) (d : String)
    (hex : (FileSettings.exists_ S fs d).2 = true) :
    FileSettings.create S env fs d false =
      (fs, .error (.settingsExists
        ("`" ++ S.filename ++ "` already exists in `" ++ d ++ "`"))) := by
  simp only [FileSettings.create]
  rw [show resolvePath d = d from rfl, show (!false && (FileSettings.exists_ S fs d).2)
    = true by simp [hex], if_pos rfl]

theorem create_exists_fails_witness :
    (FileSettings.exists_ SimpleSettings fsSimple "/app").2 = true ∧
    FileSettings.create SimpleSettings envOk fsSimple "/app" false =
      (fsSimple, .error (.settingsExists
        ("`" ++ "settings.json" ++ "` already exists in `" ++ "/app" ++ "`"))) :=
  ⟨by decide, create_exists_fails SimpleSettings envOk fsSimple "/app" (by decide)⟩

/-- C6: for every directory `D` whose settings file does not exist,
`load(D)` with `create_if_missing=true` delegates to `create(D)` (the
non-`exists_ok` path, fresh defaults) and returns its result, so on success
the file then exists; `load(D)` with `create_if_missing=false` fails with
`SettingsNotFound` whose message names the file and the directory. -/
theorem load_missing_behavior (S : Schema) (env : OsEnv) (fs : FS) (d : String)
    (dv : List (String × JVal))
    (hmiss : (FileSettings.exists_ S fs d).2 = false)
    (hdv : Schema.instantiateDefaults S.fields = .ok dv) :
    FileSettings.load S env fs d true = FileSettings.create S env fs d false ∧
    FileSettings.load S env fs d false =
      (fs, .error (.settingsNotFound
        ("`" ++ S.filename ++ "` not found in `" ++ d ++ "`"))) ∧
    (FileSettings.load S envOk fs d true).2 = .ok ⟨dv, d⟩ ∧
    (FileSettings.exists_ S (FileSettings.load S envOk fs d true).1 d).2 = true := by
  have hread := exists_false_readFile S fs d hmiss
  have hfree : (!false && (FileSettings.exists_ S fs (resolvePath d)).2) = false := by
    simpa [resolvePath] using hmiss
  have hcr := create_envOk S fs d dv false hdv hfree
  have hld := load_missing_create S envOk fs d hread
  refine ⟨load_missing_create S env fs d hread,
    load_missing_error S env fs d hread, ?_, ?_⟩
  · rw [hld, hcr]
  · rw [hld, hcr]
    simp only [FileSettings.exists_, FS.fileExists]
    rw [show joinPath (resolvePath d) S.filename = joinPath d S.filename from rfl,
      FS.readFile_writeFile_self]
    rfl

theorem load_missing_behavior_witness :
    (FileSettings.exists_ SimpleSettings FS.empty "/app").2 = false ∧
    Schema.instantiateDefaults SimpleSettings.fields = .ok simpleDefaults ∧
    ((FileSettings.load SimpleSettings envOk FS.empty "/app" true
        = FileSettings.create SimpleSettings envOk FS.empty "/app" false) ∧
      FileSettings.load SimpleSettings envOk FS.empty "/app" false
        = (FS.empty, .error (.settingsNotFound
            ("`" ++ "settings.json" ++ "` not found in `" ++ "/app" ++ "`"))) ∧
      (FileSettings.load SimpleSettings envOk FS.empty "/app" true).2
        = .ok ⟨simpleDefaults, "/app"⟩ ∧
      (FileSettings.exists_ SimpleSettings
        (FileSettings.load SimpleSettings envOk FS.empty "/app" true).1 "/app").2
        = true) :=
  ⟨by decide, by rfl,
    load_missing_behavior SimpleSettings envOk FS.empty "/app" simpleDefaults
      (by decide) (by rfl)⟩

/-- C7: for every directory `D` whose settings file already exists,
`create(D, exists_ok=true)` succeeds and overwrites the file with fresh
schema defaults: the returned instance and the resulting file content
reflect the defaults (for any prior filesystem content — the existing file
is never loaded). -/
theorem create_exists_ok_overwrites (S : Schema) (fs : FS) (d : String)
    (dv : List (String × JVal))
    (hdv : Schema.instantiateDefaults S.fields = .ok dv)
    (hex : (FileSettings.exists_ S fs d).2 = true) :
    (FileSettings.create S envOk fs d true).2 = .ok ⟨dv, d⟩ ∧
    ((FileSettings.create S envOk fs d true).1).readFile (joinPath d S.filename)
      = some (.obj dv (some 2)) := by
  have hfree : (!true && (FileSettings.exists_ S fs (resolvePath d)).2) = false := by
    simp
  have hcr := create_envOk S fs d dv true hdv hfree
  exact ⟨by rw [hcr], by rw [hcr]; exact FS.readFile_writeFile_self _ _ _⟩

theorem create_exists_ok_overwrites_witness :
    Schema.instantiateDefaults SimpleSettings.fields = .ok simpleDefaults ∧
    (FileSettings.exists_ SimpleSettings fsSimple "/app").2 = true ∧
    ((FileSettings.create SimpleSettings envOk fsSimple "/app" true).2
        = .ok ⟨simpleDefaults, "/app"⟩ ∧
      ((FileSettings.create SimpleSettings envOk fsSimple "/app" true).1).readFile
          (joinPath "/app" "settings.json")
        = some (.obj simpleDefaults (some 2))) :=
  ⟨by rfl, by decide,
    create_exists_ok_overwrites SimpleSettings fsSimple "/app" simpleDefaults
      (by rfl) (by decide)⟩

theorem simpleSettings_wf : SimpleSettings.WF := by
  constructor
  · decide
  · intro f hf d hd
    simp only [SimpleSettings, List.mem_cons, List.not_mem_nil, or_false] at hf
    rcases hf with rfl | rfl | rfl
    · cases hd; rfl
    · cases hd; rfl
    · cases hd; rfl

/-- C4: for every file content that fails deserialization or validation
against the schema (malformed JSON, a field value of the wrong type, a
missing required field, or an undeclared extra field), `load` fails with
`InvalidSettingsData` — the `ValueError` whose message embeds the
underlying validation diagnostic; moreover malformed text always yields a
diagnostic, and a JSON object containing any undeclared key is always
rejected, never silently ignored. -/
theorem load_invalid_data (S : Schema) (env : OsEnv) (fs : FS) (d : String)
    (cim : Bool) (c : JsonText) (diag : String)
    (obj : List (String × JVal)) (ind : Option Nat) (k : String)
    (hread : fs.readFile (joinPath d S.filename) = some c)
    (hbad : modelValidateJson S c = .error diag)
    (hk : k ∈ obj.map Prod.fst) (hundecl : S.declares k = false) :
    FileSettings.load S env fs d cim =
      (fs, .error (.valueError ("Invalid settings data: " ++ diag))) ∧
    (∀ s, modelValidateJson S (.bad s) = .error ("Invalid JSON: " ++ s)) ∧
    ∃ diag', modelValidateJson S (.obj obj ind) = .error diag' := by
  refine ⟨load_read_error S env fs d cim c diag hread hbad, fun s => rfl, ?_⟩
  cases hf : obj.find? (fun p => !S.declares p.1) with
  | none =>
    exfalso
    rw [List.find?_eq_none] at hf
    obtain ⟨p, hp, hpk⟩ := List.mem_map.mp hk
    exact hf p hp (by rw [hpk, hundecl]; rfl)
  | some p' =>
    exact ⟨"Extra inputs are not permitted: " ++ p'.1,
      by simp only [modelValidateJson, validateObj, hf]⟩

theorem load_invalid_data_witness :
    fsWrongType.readFile (joinPath "/app" "settings.json")
      = some (.obj [("name", .s "test"), ("count", .s "not a number"),
          ("enabled", .b true)] none) ∧
    modelValidateJson SimpleSettings
        (.obj [("name", .s "test"), ("count", .s "not a number"),
          ("enabled", .b true)] none)
      = .error "Input should be a valid value for count" ∧
    "unknown_field" ∈
      ([("name", JVal.s "t"), ("unknown_field", JVal.s "x")].map Prod.fst) ∧
    SimpleSettings.declares "unknown_field" = false ∧
    (FileSettings.load SimpleSettings envOk fsWrongType "/app" false
      = (fsWrongType, .error (.valueError
          ("Invalid settings data: " ++ "Input should be a valid value for count"))) ∧
      (∀ s, modelValidateJson SimpleSettings (.bad s)
        = .error ("Invalid JSON: " ++ s)) ∧
      ∃ diag', modelValidateJson SimpleSettings
        (.obj [("name", JVal.s "t"), ("unknown_field", JVal.s "x")] none)
          = .error diag') :=
  ⟨by decide, by rfl, by decide, by decide,
    load_invalid_data SimpleSettings envOk fsWrongType "/app" false
      (.obj [("name", .s "test"), ("count", .s "not a number"),
        ("enabled", .b true)] none)
      "Input should be a valid value for count"
      [("name", JVal.s "t"), ("unknown_field", JVal.s "x")] none "unknown_field"
      (by decide) (by rfl) (by decide) (by decide)⟩

/-- C8: for every bound instance, `save()` writes to
`<bound settings directory>/<filename>`: it first creates all missing
intermediate directories, recursively and idempotently, and the written
file contains exactly the current field values serialized as
2-space-indented JSON; when the values conform to the schema the written
object's keys are exactly the schema's declared field names, so the
settings directory and the filename are never persisted inside the file. -/
theorem save_writes_file (S : Schema) (inst : Instance) (fs : FS) :
    ((FileSettings.save S envOk inst fs).2.1).readFile
        (joinPath inst.settingsDir S.filename)
      = some (.obj inst.vals (some 2)) ∧
    (FileSettings.save S envOk inst fs).2.1 =
      (fs.mkdirParents inst.settingsDir).writeFile
        (joinPath inst.settingsDir S.filename) (.obj inst.vals (some 2)) ∧
    (∀ x ∈ pathPrefixes inst.settingsDir,
      x ∈ ((FileSettings.save S envOk inst fs).2.1).dirs) ∧
    (fs.mkdirParents inst.settingsDir).mkdirParents inst.settingsDir
      = fs.mkdirParents inst.settingsDir ∧
    (S.Valid inst.vals →
      inst.vals.map Prod.fst = S.fields.map FieldDecl.name) := by
  rw [save_envOk]
  refine ⟨FS.readFile_writeFile_self _ _ _, rfl, ?_,
    FS.mkdirParents_idem fs inst.settingsDir,
    fun hv => ValsMatch_keys S.fields inst.vals hv⟩
  intro x hx
  exact FS.mkdirParents_mem fs inst.settingsDir x hx

theorem save_writes_file_witness :
    Schema.Valid SimpleSettings simpleDefaults ∧
    ((FileSettings.save SimpleSettings envOk ⟨simpleDefaults, "/app"⟩
        FS.empty).2.1).readFile (joinPath "/app" "settings.json")
      = some (.obj simpleDefaults (some 2)) ∧
    simpleDefaults.map Prod.fst = SimpleSettings.fields.map FieldDecl.name :=
  ⟨by decide,
    (save_writes_file SimpleSettings ⟨simpleDefaults, "/app"⟩ FS.empty).1,
    (save_writes_file SimpleSettings ⟨simpleDefaults, "/app"⟩ FS.empty).2.2.2.2
      (by decide)⟩

/-- C3: a settings instance's field values satisfy the schema's validation
rules at all times: values produced at construction (instantiating the
defaults, or validating loaded data) satisfy them, every field assignment
re-validates and preserves them, and assigning a value of the wrong type to
a bound field raises a validation failure while leaving the instance — in
particular the field's previous value — intact: the assignment is rejected,
not partially applied. -/
theorem assignment_validation (S : Schema) (hwf : S.WF) (inst : Instance)
    (name : String) (v : JVal) (dv vals : List (String × JVal)) (c : JsonText)
    (hv : S.Valid inst.vals) :
    (Schema.instantiateDefaults S.fields = .ok dv → S.Valid dv) ∧
    (modelValidateJson S c = .ok vals → S.Valid vals) ∧
    S.Valid ((setField S inst name v).1).vals ∧
    (∀ f, S.fields.find? (fun g => g.name == name) = some f →
      checkType f.type v = false →
      setField S inst name v =
        (inst, some (.validationError
          ("Input should be a valid value for " ++ name)))) ∧
    (∀ e, (setField S inst name v).2 = some e →
      (setField S inst name v).1 = inst) := by
  refine ⟨valid_defaults S hwf dv, modelValidateJson_valid S hwf.2 c vals,
    setField_preserves_valid S hwf inst name v hv, ?_,
    setField_error_unchanged S inst name v⟩
  intro f hfind hty
  simp only [setField, hfind]
  rw [if_neg (by simp [hty])]

theorem assignment_validation_witness :
    SimpleSettings.WF ∧
    Schema.Valid SimpleSettings simpleDefaults ∧
    ((Schema.instantiateDefaults SimpleSettings.fields = .ok simpleDefaults →
        Schema.Valid SimpleSettings simpleDefaults) ∧
      (modelValidateJson SimpleSettings (.obj [] none) = .ok simpleDefaults →
        Schema.Valid SimpleSettings simpleDefaults) ∧
      Schema.Valid SimpleSettings
        ((setField SimpleSettings ⟨simpleDefaults, "/app"⟩ "count"
          (.s "oops")).1).vals ∧
      (∀ f, SimpleSettings.fields.find? (fun g => g.name == "count") = some f →
        checkType f.type (.s "oops") = false →
        setField SimpleSettings ⟨simpleDefaults, "/app"⟩ "count" (.s "oops") =
          (⟨simpleDefaults, "/app"⟩, some (.validationError
            ("Input should be a valid value for " ++ "count")))) ∧
      (∀ e, (setField SimpleSettings ⟨simpleDefaults, "/app"⟩ "count"
          (.s "oops")).2 = some e →
        (setField SimpleSettings ⟨simpleDefaults, "/app"⟩ "count"
          (.s "oops")).1 = ⟨simpleDefaults, "/app"⟩)) :=
  ⟨simpleSettings_wf, by decide,
    assignment_validation SimpleSettings simpleSettings_wf
      ⟨simpleDefaults, "/app"⟩ "count" (.s "oops") simpleDefaults
      simpleDefaults (.obj [] none) (by decide)⟩

/-- C2: round-trip law.  For every schema `S`, directory `D` and valid
complete field-value mapping `M`: `S.create(D)` followed by `S.load(D)`
yields field values equal to `S`'s defaults; and `S.create(D)`, mutating
the instance's fields to `M` by per-field assignment, `save()`, then
`S.load(D)` yields field values equal to `M`. -/
theorem create_load_roundtrip (S : Schema) (fs : FS) (d : String)
    (dv m : List (String × JVal))
    (hwf : S.WF)
    (hdv : Schema.instantiateDefaults S.fields = .ok dv)
    (hmiss : (FileSettings.exists_ S fs d).2 = false)
    (hm : S.Valid m) :
    (FileSettings.create S envOk fs d false).2 = .ok ⟨dv, d⟩ ∧
    (FileSettings.load S envOk (FileSettings.create S envOk fs d false).1
      d false).2 = .ok ⟨dv, d⟩ ∧
    applyAssignments S ⟨dv, d⟩ m = ⟨m, d⟩ ∧
    (FileSettings.load S envOk
        (FileSettings.save S envOk (applyAssignments S ⟨dv, d⟩ m)
          (FileSettings.create S envOk fs d false).1).2.1 d false).2
      = .ok ⟨m, d⟩ := by
  have hfree : (!false && (FileSettings.exists_ S fs (resolvePath d)).2) = false := by
    simpa [resolvePath] using hmiss
  have hcr := create_envOk S fs d dv false hdv hfree
  have hdvv : S.Valid dv := valid_defaults S hwf dv hdv
  have happ := applyAssignments_sets S hwf dv m d hdvv hm
  have hok_dv : modelValidateJson S (.obj dv (some 2)) = .ok dv :=
    validateObj_of_valid S dv hwf hdvv
  have hok_m : modelValidateJson S (.obj m (some 2)) = .ok m :=
    validateObj_of_valid S m hwf hm
  refine ⟨by rw [hcr], ?_, happ, ?_⟩
  · rw [hcr]
    rw [load_read_ok S envOk _ d false dv _ (FS.readFile_writeFile_self _ _ _)
      hok_dv]
  · rw [hcr, happ, save_envOk]
    simp only [modelDumpJson]
    rw [load_read_ok S envOk _ d false m (.obj m (some 2))
      (FS.readFile_writeFile_self _ _ _) hok_m]

theorem create_load_roundtrip_witness :
    SimpleSettings.WF ∧
    Schema.instantiateDefaults SimpleSettings.fields = .ok simpleDefaults ∧
    (FileSettings.exists_ SimpleSettings FS.empty "/app").2 = false ∧
    Schema.Valid SimpleSettings simpleM ∧
    ((FileSettings.create SimpleSettings envOk FS.empty "/app" false).2
        = .ok ⟨simpleDefaults, "/app"⟩ ∧
      (FileSettings.load SimpleSettings envOk
        (FileSettings.create SimpleSettings envOk FS.empty "/app" false).1
        "/app" false).2 = .ok ⟨simpleDefaults, "/app"⟩ ∧
      applyAssignments SimpleSettings ⟨simpleDefaults, "/app"⟩ simpleM
        = ⟨simpleM, "/app"⟩ ∧
      (FileSettings.load SimpleSettings envOk
          (FileSettings.save SimpleSettings envOk
            (applyAssignments SimpleSettings ⟨simpleDefaults, "/app"⟩ simpleM)
            (FileSettings.create SimpleSettings envOk FS.empty "/app" false).1).2.1
          "/app" false).2
        = .ok ⟨simpleM, "/app"⟩) :=
  ⟨simpleSettings_wf, by rfl, by decide, by decide,
    create_load_roundtrip SimpleSettings FS.empty "/app" simpleDefaults simpleM
      simpleSettings_wf (by rfl) (by decide) (by decide)⟩

/-- C1 counterexample: the claim says every kind in the error taxonomy is
rooted in the base settings-error category, so a caller catching the base
category catches every failing `create`/`load`/`save`.  On the code, a
`load` over invalid data signals a plain `ValueError` and a failing `save`
signals a plain `OSError`; neither is an instance of `SettingsError`, so a
caller catching the base category catches neither. -/
theorem settings_error_base_counterexample :
    (FileSettings.load SimpleSettings envOk fsBad "/app" false).2
      = .error (.valueError "Invalid settings data: Invalid JSON: invalid json") ∧
    Err.isSettingsError
        (.valueError "Invalid settings data: Invalid JSON: invalid json")
      = false ∧
    (FileSettings.save SimpleSettings envFail ⟨simpleDefaults, "/app"⟩
        FS.empty).2.2
      = some (.osError
          "Failed to save settings to /app/settings.json: Permission denied") ∧
    Err.isSettingsError
        (.osError "Failed to save settings to /app/settings.json: Permission denied")
      = false :=
  ⟨by rfl, by rfl, by rfl, by rfl⟩

/-- C1 amended: `SettingsExists` and `SettingsNotFound` are rooted in the
one base settings-error category, so a caller catching the base category
catches those failures of `create` and `load`; but `load` signals invalid
settings data as a plain `ValueError` and `save` signals a persistence
failure as a plain `OSError`, neither rooted in the base settings-error
category, so such failures are not caught by a caller catching only the
base category. -/
theorem settings_error_taxonomy (S : Schema) (env : OsEnv) (inst : Instance)
    (fs₁ fs₂ fs₃ : FS) (d m em diag : String) (c : JsonText)
    (hex : (FileSettings.exists_ S fs₁ d).2 = true)
    (hmiss : (FileSettings.exists_ S fs₂ d).2 = false)
    (hread : fs₃.readFile (joinPath d S.filename) = some c)
    (hbad : modelValidateJson S c = .error diag)
    (hmk : env.mkdirError = some em) :
    (Err.settingsExists m).isSettingsError = true ∧
    (Err.settingsNotFound m).isSettingsError = true ∧
    (Err.valueError m).isSettingsError = false ∧
    (Err.osError m).isSettingsError = false ∧
    (FileSettings.create S env fs₁ d false).2 =
      .error (.settingsExists
        ("`" ++ S.filename ++ "` already exists in `" ++ d ++ "`")) ∧
    (FileSettings.load S env fs₂ d false).2 =
      .error (.settingsNotFound
        ("`" ++ S.filename ++ "` not found in `" ++ d ++ "`")) ∧
    (FileSettings.load S env fs₃ d false).2 =
      .error (.valueError ("Invalid settings data: " ++ diag)) ∧
    (FileSettings.save S env inst fs₁).2.2 =
      some (.osError ("Failed to save settings to "
        ++ joinPath inst.settingsDir S.filename ++ ": " ++ em)) := by
  refine ⟨rfl, rfl, rfl, rfl, ?_, ?_, ?_, ?_⟩
  · rw [create_exists_fails S env fs₁ d hex]
  · rw [load_missing_error S env fs₂ d (exists_false_readFile S fs₂ d hmiss)]
  · rw [load_read_error S env fs₃ d false c diag hread hbad]
  · simp only [FileSettings.save, hmk]

theorem settings_error_taxonomy_witness :
    (FileSettings.exists_ SimpleSettings fsSimple "/app").2 = true ∧
    (FileSettings.exists_ SimpleSettings FS.empty "/app").2 = false ∧
    fsBad.readFile (joinPath "/app" "settings.json")
      = some (.bad "invalid json") ∧
    modelValidateJson SimpleSettings (.bad "invalid json")
      = .error "Invalid JSON: invalid json" ∧
    envFail.mkdirError = some "Permission denied" ∧
    ((Err.settingsExists "x").isSettingsError = true ∧
      (Err.settingsNotFound "x").isSettingsError = true ∧
      (Err.valueError "x").isSettingsError = false ∧
      (Err.osError "x").isSettingsError = false ∧
      (FileSettings.create SimpleSettings envFail fsSimple "/app" false).2 =
        .error (.settingsExists
          ("`" ++ "settings.json" ++ "` already exists in `" ++ "/app" ++ "`")) ∧
      (FileSettings.load SimpleSettings envFail FS.empty "/app" false).2 =
        .error (.settingsNotFound
          ("`" ++ "settings.json" ++ "` not found in `" ++ "/app" ++ "`")) ∧
      (FileSettings.load SimpleSettings envFail fsBad "/app" false).2 =
        .error (.valueError
          ("Invalid settings data: " ++ "Invalid JSON: invalid json")) ∧
      (FileSettings.save SimpleSettings envFail ⟨simpleDefaults, "/app"⟩
          fsSimple).2.2 =
        some (.osError ("Failed to save settings to "
          ++ joinPath "/app" "settings.json" ++ ": " ++ "Permission denied"))) :=
  ⟨by decide, by decide, by rfl, by rfl, by rfl,
    settings_error_taxonomy SimpleSettings envFail ⟨simpleDefaults, "/app"⟩
      fsSimple FS.empty fsBad "/app" "x" "Permission denied"
      "Invalid JSON: invalid json" (.bad "invalid json")
      (by decide) (by decide) (by rfl) (by rfl) (by rfl)⟩
